import Mathlib

/-!
Verification of the mvcapp request-dispatch core (Digivance MVC Application
Framework): the in-process session manager (`sessionmanager.go`), the v0.1
action-result writer (`actionresult.go`), and the route-manager dispatch
contract.

The session-store operations are translated from the Go source.  The two
removal loops, `DropSession` and `CleanSessions`, iterate with `range` over a
snapshot of the `Sessions` slice header while reassigning `manager.Sessions`
inside the loop body; because `append` on a shared backing array mutates the
elements in place, the loop can observe its own writes.  The embedding models
this explicitly with a loop state carrying the snapshot backing array
contents, the current slice value, the current slice's offset into that
backing array, and whether the two still alias.  Slice expressions that are
out of range in Go are modelled as a `panicked` fault; operations whose
observable result depends on the slice's spare capacity (which the source
never pins down) are modelled as a `memDependent` fault, and every theorem
below stays inside the capacity-independent fragment.
-/

/-- Modelled from the spec: `session.go` is not under `src/`.  A session value
is an ordered (key, value) pair; the payload type is opaque and modelled as a
string (spec section 3: "values: ordered sequence of (key,value) pairs"). -/
structure SessionValue where
  key : String
  value : String
deriving DecidableEq

/-- Modelled from the spec: `session.go` is not under `src/`.  Field names and
types follow their uses in `sessionmanager.go` (src/unnamed/part_002): `ID`,
`Values`, `ActivityDate`.  Timestamps are modelled as integers. -/
structure Session where
  ID : String
  Values : List SessionValue
  ActivityDate : Int
deriving DecidableEq

/-- Modelled from the spec: `session.go` is not under `src/`.  `NewSession`
produces an empty-values record stamped with the current time (spec section
4.3: "constructs a new empty-values record with current-time activity
stamp"); the caller `CreateSession` overwrites the `ID` field. -/
def NewSession (now : Int) : Session :=
  { ID := "", Values := [], ActivityDate := now }

/-- `SessionManager.GetSession` (part_002 lines 40-48): linear scan returning
the element `manager.Sessions[key]` at the first key whose `ID` matches, or
nil.  The loop body contains no assignment to `manager.Sessions`. -/
def GetSession : List Session → String → Option Session
  | [], _ => none
  | s :: rest, id => if s.ID = id then some s else GetSession rest id

/-- The `Sessions` collection after a `GetSession` call.  The source loop
(part_002 lines 40-48) performs no write to `manager.Sessions`, so the
post-state equals the pre-state; this definition records that state effect of
the method in the embedding. -/
def GetSessionSessions (sessions : List Session) (_ : String) : List Session :=
  sessions

/-- `SessionManager.Contains` (part_002 lines 51-59). -/
def Contains : List Session → String → Bool
  | [], _ => false
  | s :: rest, id => if s.ID = id then true else Contains rest id

/-- `SessionManager.CreateSession` (part_002 lines 62-68): builds a new
session, sets its `ID`, appends it unconditionally, and returns the appended
element `manager.Sessions[i]` (`i` = old length). -/
def CreateSession (sessions : List Session) (id : String) (now : Int) :
    List Session × Session :=
  let session := { NewSession now with ID := id }
  (sessions ++ [session], session)

/-- Helper for `SetSession`: the in-place write `res.Values = append(...)`
through the pointer returned by `GetSession` replaces the `Values` field of
the first record whose `ID` matches, leaving every other field and record
untouched. -/
def replaceFirstValues : List Session → String → List SessionValue → List Session
  | [], _, _ => []
  | s :: rest, id, vals =>
    if s.ID = id then { s with Values := vals } :: rest
    else s :: replaceFirstValues rest id vals

/-- `SessionManager.SetSession` (part_002 lines 72-81): looks the ID up; on a
hit it overwrites the stored record's `Values` with a copy of the incoming
values (`res.Values = append([]*SessionValue{}, session.Values...)`) and
touches nothing else — in particular `ActivityDate` is not updated; on a miss
it appends the incoming record. -/
def SetSession (sessions : List Session) (session : Session) : List Session :=
  match GetSession sessions session.ID with
  | some _ => replaceFirstValues sessions session.ID session.Values
  | none => sessions ++ [session]

/-- Faults the removal loops can run into: `panicked` models a Go slice-bounds
panic; `memDependent` marks a configuration whose observable outcome depends
on the spare capacity of the backing array (in-place versus reallocating
`append`, or a reslice past the length), which the source leaves undetermined. -/
inductive Fault where
  | panicked : Fault
  | memDependent : Fault
deriving DecidableEq

/-- Loop state for the remove-while-ranging loops of `DropSession` and
`CleanSessions`.  `snap` holds the contents of the backing array positions
`[0, n0)` seen by the `range` snapshot; `cur` is the value sequence of
`manager.Sessions`; while `aliased` is true, `cur` occupies `snap` positions
`[off, off + cur.length)`, so an in-place `append` shift writes through into
`snap`.  `fragile` records that an `append(s[2:], s[0])` happened whose
in-place/reallocation status (hence any later write-through) is
capacity-dependent. -/
structure LoopSt where
  snap : List Session
  cur : List Session
  off : Nat
  aliased : Bool
  fragile : Bool
  fault : Option Fault
deriving DecidableEq

/-- Contents of the snapshot backing array after the in-place shift
`append(s[:key], s[key+1:]...)` of the current slice `cur` sitting at offset
`off`: positions `[off + key, off + cur.length - 1)` receive the elements
`cur[key+1..]`, the stale cell at `off + cur.length - 1` keeps its old value. -/
def shiftWrite (snap : List Session) (off key : Nat) (cur : List Session) :
    List Session :=
  snap.take (off + key) ++ cur.drop (key + 1) ++ snap.drop (off + cur.length - 1)

/-- One iteration of the `DropSession` loop (part_002 lines 85-99) at snapshot
index `key`.  The range variable `val` is read from the (possibly mutated)
snapshot backing array; the three branches mirror the source: `key > 1` does
`append(Sessions[:key], Sessions[key+1:]...)` (panics when `key+1` exceeds
the current length, shifts in place otherwise), `key == 1` does
`append(Sessions[2:], Sessions[0])` (panics when the current length is below
2), `key == 0` does `Sessions = Sessions[1:]`. -/
def dropStep (id : String) (st : LoopSt) (key : Nat) : LoopSt :=
  if st.fault.isSome then st
  else
    match st.snap[key]? with
    | none => st
    | some val =>
      if val.ID = id then
        if 1 < key then
          if st.cur.length ≤ key then { st with fault := some Fault.panicked }
          else if st.fragile then { st with fault := some Fault.memDependent }
          else
            { st with
              cur := st.cur.take key ++ st.cur.drop (key + 1),
              snap := if st.aliased then shiftWrite st.snap st.off key st.cur
                      else st.snap }
        else if key = 1 then
          if st.cur.length < 2 then { st with fault := some Fault.panicked }
          else
            { st with cur := st.cur.drop 2 ++ st.cur.take 1,
                      aliased := false, fragile := true }
        else
          if st.cur.length < 1 then { st with fault := some Fault.panicked }
          else { st with cur := st.cur.drop 1, off := st.off + 1 }
      else st

/-- One iteration of the `CleanSessions` loop (part_002 lines 102-130) at
snapshot index `key`.  Identical slice mechanics to `dropStep`, but the
branches additionally test `len(manager.Sessions) > 1`: at `key > 1` with
current length at most 1 the source reslices `Sessions[:key]` past the
length (capacity-dependent: stale cells or a panic); at `key == 1` with
length at most 1 it copies `append([]*Session{}, Sessions[0])` into a fresh
array; at `key == 0` with length at most 1 it installs a fresh empty slice. -/
def cleanStep (cutoff : Int) (st : LoopSt) (key : Nat) : LoopSt :=
  if st.fault.isSome then st
  else
    match st.snap[key]? with
    | none => st
    | some val =>
      if val.ActivityDate < cutoff then
        if 1 < key then
          if 1 < st.cur.length then
            if st.cur.length ≤ key then { st with fault := some Fault.panicked }
            else if st.fragile then { st with fault := some Fault.memDependent }
            else
              { st with
                cur := st.cur.take key ++ st.cur.drop (key + 1),
                snap := if st.aliased then shiftWrite st.snap st.off key st.cur
                        else st.snap }
          else { st with fault := some Fault.memDependent }
        else if key = 1 then
          if 1 < st.cur.length then
            { st with cur := st.cur.drop 2 ++ st.cur.take 1,
                      aliased := false, fragile := true }
          else if st.cur.length < 1 then { st with fault := some Fault.panicked }
          else { st with cur := st.cur.take 1, aliased := false }
        else
          if 1 < st.cur.length then { st with cur := st.cur.drop 1, off := st.off + 1 }
          else { st with cur := [], aliased := false }
      else st

/-- Runs `n` consecutive loop iterations starting at snapshot index `key`:
the Go `for key, val := range manager.Sessions` header fixes the iteration
count to the length of the snapshot taken on entry. -/
def runLoop (step : LoopSt → Nat → LoopSt) : LoopSt → Nat → Nat → LoopSt
  | st, _, 0 => st
  | st, key, n + 1 => runLoop step (step st key) (key + 1) n

/-- Loop state on entry: `manager.Sessions` and the range snapshot are the
same slice at offset 0 over the same backing array. -/
def initSt (sessions : List Session) : LoopSt :=
  { snap := sessions, cur := sessions, off := 0, aliased := true,
    fragile := false, fault := none }

/-- Observable outcome of a removal loop: the final `manager.Sessions` value,
a slice-bounds panic, or a capacity-dependent (memory-layout-dependent)
result. -/
inductive LoopResult where
  | ok : List Session → LoopResult
  | panicked : LoopResult
  | memDependent : LoopResult
deriving DecidableEq

/-- Shared tail of `DropSession` and `CleanSessions`: how the final loop state
is reported. -/
def loopResultOf (st : LoopSt) : LoopResult :=
  match st.fault with
  | none => LoopResult.ok st.cur
  | some Fault.panicked => LoopResult.panicked
  | some Fault.memDependent => LoopResult.memDependent

/-- `SessionManager.DropSession` (part_002 lines 85-99). -/
def DropSession (sessions : List Session) (id : String) : LoopResult :=
  loopResultOf (runLoop (dropStep id) (initSt sessions) 0 sessions.length)

/-- `SessionManager.CleanSessions` (part_002 lines 102-130): the expiry
cutoff is `time.Now().Add(-manager.SessionTimeout)`, and a session is removed
when its `ActivityDate` is strictly before that cutoff. -/
def CleanSessions (sessions : List Session) (now timeout : Int) : LoopResult :=
  loopResultOf (runLoop (cleanStep (now - timeout)) (initSt sessions) 0 sessions.length)

/-- Index of the first session whose `ID` matches, used to state the
behaviour of `DropSession`. -/
def firstIdx : List Session → String → Option Nat
  | [], _ => none
  | s :: rest, id =>
    if s.ID = id then some 0 else (firstIdx rest id).map (· + 1)

/-- The value `DropSession` computes on a collection with unique IDs,
expressed by the position of the match: a match at index 0 drops the head, a
match at index 1 rotates the head behind the tail of the survivors
(`append(Sessions[2:], Sessions[0])`), a match further right is an
order-preserving excision, and no match leaves the collection unchanged. -/
def dropGo (sessions : List Session) (id : String) : List Session :=
  match firstIdx sessions id with
  | none => sessions
  | some 0 => sessions.drop 1
  | some 1 => sessions.drop 2 ++ sessions.take 1
  | some (k + 2) => sessions.take (k + 2) ++ sessions.drop (k + 3)

/-- The upsert the spec describes for `set(session)`, amended to what the
source does: replace the first matching record's value collection (not
merge), keep its `ActivityDate` unchanged, and append the record as new when
no ID matches. -/
def setUpsert : List Session → Session → List Session
  | [], s => [s]
  | t :: rest, s =>
    if t.ID = s.ID then { t with Values := s.Values } :: rest
    else t :: setUpsert rest s

/-- An http cookie, reduced to the fields the action-result contract
observes. -/
structure Cookie where
  name : String
  value : String
deriving DecidableEq

/-- `ActionResult` of the v0.1 action-result file (part_000 lines 25-37):
status code, header map entries, cookie collection and raw payload. -/
structure ActionResult where
  StatusCode : Int
  Headers : List (String × String)
  Cookies : List Cookie
  Data : List UInt8
deriving DecidableEq

/-- The response sink (`http.ResponseWriter`) as the v0.1 `Execute` observes
it: a header map, the cookies set so far, the status code written (if any)
and the body bytes written so far. -/
structure ResponseWriter where
  headers : List (String × String)
  cookies : List Cookie
  status : Option Int
  body : List UInt8
deriving DecidableEq

/-- `response.Header().Set(k, v)`: replaces the value of an existing header
key, otherwise adds the entry. -/
def setHeader (hs : List (String × String)) (k v : String) :
    List (String × String) :=
  if hs.any (fun p => p.1 = k) then
    hs.map (fun p => if p.1 = k then (k, v) else p)
  else hs ++ [(k, v)]

/-- `ActionResult.Execute` of v0.1 (part_000 lines 94-111): writes every
header, sets every cookie, and only then checks the payload — an empty `Data`
returns the error "No response from request" without writing a status code or
body; otherwise it writes the status code and the payload and returns nil. -/
def Execute (result : ActionResult) (response : ResponseWriter) :
    ResponseWriter × Option String :=
  let r1 := result.Headers.foldl
    (fun w p => { w with headers := setHeader w.headers p.1 p.2 }) response
  let r2 := result.Cookies.foldl
    (fun w c => { w with cookies := w.cookies ++ [c] }) r1
  if result.Data.length ≤ 0 then (r2, some "No response from request")
  else
    ({ r2 with status := some result.StatusCode, body := r2.body ++ result.Data },
     none)

/-- Modelled from the spec: `routemanager.go` is not under `src/` (only its
tests, part_001).  The reserved first path segments of spec section 4.1 step
2. -/
def reservedNames : List String := ["controllers", "views", "models", "emails"]

/-- ASCII lower-casing of one character, used to express the case-insensitive
match on reserved path segments. -/
def lowerChar (c : Char) : Char :=
  if 65 ≤ c.toNat ∧ c.toNat ≤ 90 then Char.ofNat (c.toNat + 32) else c

/-- Modelled from the spec: a first segment "case-matches" a reserved name
when it equals one of them up to letter case. -/
def isReservedName (s : String) : Bool :=
  reservedNames.any (fun r => r.data = s.data.map lowerChar)

/-- Modelled from the spec: a controller as the route manager drives it —
the registered `(http method, action name)` table (an empty method string is
the wildcard method), the continuation value the before-hook establishes
(`none` when no before-hook is registered, in which case continuation
defaults to true), and an action handler returning an optional body. -/
structure ControllerModel where
  beforeResult : Option Bool
  actions : List ((String × String) × (List String → Option String))

/-- Modelled from the spec: outcome of dispatching one request — the Error
hook path carrying its descriptive error, the NotFound path, a normal action
body, or a static file served from disk. -/
inductive Outcome where
  | errorPath : String → Outcome
  | notFoundPath : Outcome
  | body : String → Outcome
  | file : String → Outcome
deriving DecidableEq

/-- Modelled from the spec: action lookup requires an exact match of the
action name and of the HTTP method, where a controller may register an action
under the wildcard (empty) method (spec section 4.1, determinism note). -/
def lookupAction (c : ControllerModel) (method name : String) :
    Option (List String → Option String) :=
  (c.actions.find? (fun a => (a.1.1 = method ∨ a.1.1 = "") ∧ a.1.2 = name)).map
    (fun a => a.2)

/-- Modelled from the spec: the controller pipeline of section 4.2 reduced to
what dispatch observes — the before-hook gate (continuation defaults to true
with no hook), then action dispatch on `(method, segment 0 or "Index")` with
the remaining segments as parameters; a missing action or a nil result takes
the NotFound path. -/
def runPipeline (c : ControllerModel) (method : String) (segments : List String) :
    Outcome :=
  let cont := c.beforeResult.getD true
  if cont then
    let actionName := segments.headD "Index"
    let params := segments.drop 1
    match lookupAction c method actionName with
    | none => Outcome.notFoundPath
    | some handler =>
      match handler params with
      | none => Outcome.notFoundPath
      | some b => Outcome.body b
  else Outcome.notFoundPath

/-- Modelled from the spec: the route table maps controller names to
factories by exact string match (spec section 4.1, determinism note). -/
def lookupRoute (routes : List (String × ControllerModel)) (name : String) :
    Option ControllerModel :=
  (routes.find? (fun r => r.1 = name)).map (fun r => r.2)

/-- Modelled from the spec: the route manager's configuration — the route
table and the default controller name. -/
structure RouteManagerModel where
  routes : List (String × ControllerModel)
  defaultController : String

/-- Modelled from the spec: `serve_file` (spec section 4.1, static file
fallback) resolves the path against the application root, refusing an empty
or root path and any path under a reserved directory name; `files` lists the
files on disk as (path segments, content). -/
def serveFile (files : List (List String × String)) (segments : List String) :
    Option String :=
  match segments with
  | [] => none
  | seg0 :: _ =>
    if isReservedName seg0 then none
    else (files.find? (fun f => f.1 = segments)).map (fun f => f.2)

/-- Modelled from the spec: `handle_request` (spec section 4.1 steps 1-7).
Segments arrive already split (step 1).  A reserved first segment refuses
dispatch into the Error hook path (step 2); otherwise segment 0 selects a
registered controller with the rest as action and parameters, falling back to
the default controller with ALL original segments as action and parameters,
then to static file serving, then to the Error hook path (steps 3-4).  With
no segments at all, the default controller runs its `Index` action. -/
def handleRequest (rm : RouteManagerModel) (files : List (List String × String))
    (method : String) (segments : List String) : Outcome :=
  match segments with
  | [] =>
    match lookupRoute rm.routes rm.defaultController with
    | some c => runPipeline c method []
    | none =>
      match serveFile files [] with
      | some content => Outcome.file content
      | none => Outcome.errorPath "no controller"
  | seg0 :: rest =>
    if isReservedName seg0 then Outcome.errorPath "refused: reserved path"
    else
      match lookupRoute rm.routes seg0 with
      | some c => runPipeline c method rest
      | none =>
        match lookupRoute rm.routes rm.defaultController with
        | some c => runPipeline c method (seg0 :: rest)
        | none =>
          match serveFile files (seg0 :: rest) with
          | some content => Outcome.file content
          | none => Outcome.errorPath "no controller"

/-- The test controller of part_001: before-hook sets `ContinuePipeline =
true`, and the `Index` action (registered under the wildcard method) returns
the body "Test Data". -/
def testControllerModel : ControllerModel :=
  { beforeResult := some true,
    actions := [(("", "Index"), fun _ => some "Test Data")] }

/-- The route manager of the part_001 `TestRouteManager_HandleRequest` test:
the test controller registered as "test", which is also the default
controller name. -/
def testRouteManager : RouteManagerModel :=
  { routes := [("test", testControllerModel)], defaultController := "test" }

/-- Modelled from the spec: the inbound request as session injection sees it
— its cookie list. -/
structure RequestModel where
  cookies : List (String × String)
deriving DecidableEq

/-- Modelled from the spec: the controller instance fields session injection
touches — the request reference (absent on a bare controller, as in the
part_001 test `manager.SetControllerSessions(&mvcapp.Controller{})`) and the
active session slot. -/
structure ControllerInst where
  request : Option RequestModel
  session : Option Session
deriving DecidableEq

/-- Modelled from the spec: `RouteManager.SetControllerSessions`
(routemanager.go is not under `src/`; behaviour from spec sections 4.1 step 5
and 7 item d, and the part_001 test).  A missing controller or a controller
without a request is a programming error returned to the caller; otherwise
the session named by the request's session-id cookie is looked up, created if
unknown (with `freshID` when the cookie is absent), and injected into the
controller. -/
def setControllerSessions (sessions : List Session) (idKey freshID : String)
    (now : Int) (controller : Option ControllerInst) :
    Except String (ControllerInst × List Session) :=
  match controller with
  | none => Except.error "failed to set controller sessions on nil controller"
  | some c =>
    match c.request with
    | none => Except.error "failed to set controller sessions on nil request"
    | some req =>
      match req.cookies.find? (fun p => p.1 = idKey) with
      | some p =>
        match GetSession sessions p.2 with
        | some s => Except.ok ({ c with session := some s }, sessions)
        | none =>
          let r := CreateSession sessions p.2 now
          Except.ok ({ c with session := some r.2 }, r.1)
      | none =>
        let r := CreateSession sessions freshID now
        Except.ok ({ c with session := some r.2 }, r.1)

theorem lt_of_getOpt {α : Type} {l : List α} {i : Nat} {v : α}
    (h : l[i]? = some v) : i < l.length := by
  by_contra hc
  push_neg at hc
  rw [List.getElem?_eq_none hc] at h
  exact Option.noConfusion h

theorem memOfGetOpt {α : Type} {l : List α} {i : Nat} {v : α}
    (h : l[i]? = some v) : v ∈ l := by
  have hi : i < l.length := lt_of_getOpt h
  have h2 := List.getElem?_eq_getElem hi
  have h3 : l[i] = v := Option.some.inj (h2.symm.trans h)
  rw [← h3]
  exact List.getElem_mem hi

theorem mem_take_idx {α : Type} {l : List α} {k : Nat} {v : α}
    (h : v ∈ l.take k) : ∃ i, i < k ∧ l[i]? = some v := by
  obtain ⟨n, hn⟩ := List.mem_iff_get.mp h
  have hlt : (n : Nat) < k := by
    have h1 := n.isLt
    have h2 : (List.take k l).length = min k l.length := List.length_take k l
    omega
  refine ⟨n, hlt, ?_⟩
  have h2 : (l.take k)[(n : Nat)]? = some v := by
    rw [List.getElem?_eq_getElem n.isLt]
    rw [← List.get_eq_getElem]
    rw [hn]
  rw [List.getElem?_take] at h2
  simpa [hlt] using h2

theorem mem_drop_idx {α : Type} {l : List α} {k : Nat} {v : α}
    (h : v ∈ l.drop k) : ∃ i, k ≤ i ∧ l[i]? = some v := by
  obtain ⟨n, hn⟩ := List.mem_iff_get.mp h
  refine ⟨k + n, Nat.le_add_right _ _, ?_⟩
  have h2 : (l.drop k)[(n : Nat)]? = some v := by
    rw [List.getElem?_eq_getElem n.isLt]
    rw [← List.get_eq_getElem]
    rw [hn]
  rw [List.getElem?_drop] at h2
  exact h2

theorem getOpt_id_inj {l : List Session} (h : (l.map Session.ID).Nodup)
    {i j : Nat} {u v : Session} (hi : l[i]? = some u) (hj : l[j]? = some v)
    (huv : u.ID = v.ID) : i = j := by
  have hi2 : i < l.length := lt_of_getOpt hi
  have hj2 : j < l.length := lt_of_getOpt hj
  have hu : l[i] = u :=
    Option.some.inj ((List.getElem?_eq_getElem hi2).symm.trans hi)
  have hv : l[j] = v :=
    Option.some.inj ((List.getElem?_eq_getElem hj2).symm.trans hj)
  have hinj := List.nodup_iff_injective_get.mp h
  have hlen : (l.map Session.ID).length = l.length := List.length_map l Session.ID
  have e1 : (l.map Session.ID).get ⟨i, by rw [hlen]; exact hi2⟩ = u.ID := by
    rw [List.get_eq_getElem]
    simp [List.getElem_map, hu]
  have e2 : (l.map Session.ID).get ⟨j, by rw [hlen]; exact hj2⟩ = v.ID := by
    rw [List.get_eq_getElem]
    simp [List.getElem_map, hv]
  have efin := hinj (e1.trans (huv.trans e2.symm))
  exact congrArg Fin.val efin

theorem runLoop_add (step : LoopSt → Nat → LoopSt) (st : LoopSt) (key a b : Nat) :
    runLoop step st key (a + b) = runLoop step (runLoop step st key a) (key + a) b := by
  induction a generalizing st key with
  | zero =>
    rw [Nat.zero_add, Nat.add_zero]
    rfl
  | succ a ih =>
    have h1 : a + 1 + b = (a + b) + 1 := by omega
    rw [h1]
    show runLoop step (step st key) (key + 1) (a + b) = _
    rw [ih]
    have h2 : key + 1 + a = key + (a + 1) := by omega
    rw [h2]
    rfl

theorem runLoop_frozen (step : LoopSt → Nat → LoopSt) (st : LoopSt) (key n : Nat)
    (h : ∀ i, key ≤ i → i < key + n → step st i = st) :
    runLoop step st key n = st := by
  induction n generalizing key with
  | zero => rfl
  | succ n ih =>
    have h0 : step st key = st := h key (Nat.le_refl key) (by omega)
    show runLoop step (step st key) (key + 1) n = st
    rw [h0]
    exact ih (key + 1) (fun i hi1 hi2 => h i (by omega) (by omega))

theorem dropStep_skip (id : String) (st : LoopSt) (i : Nat)
    (h : ∀ v, st.snap[i]? = some v → ¬ v.ID = id) : dropStep id st i = st := by
  cases hv : st.snap[i]? with
  | none => simp [dropStep, hv]
  | some v => simp [dropStep, hv, h v hv]

theorem take_drop_sublist {α : Type} (l : List α) (k : Nat) :
    (l.take k ++ l.drop (k + 1)).Sublist l := by
  conv_rhs => rw [← List.take_append_drop k l]
  apply List.Sublist.append_left
  rw [← List.drop_drop]
  exact List.drop_sublist 1 (l.drop k)

theorem rot_subperm {α : Type} (l : List α) : (l.drop 2 ++ l.take 1).Subperm l := by
  refine ⟨l.take 1 ++ l.drop 2, List.perm_append_comm, ?_⟩
  conv_rhs => rw [← List.take_append_drop 2 l]
  apply List.Sublist.append
  · have h1 : l.take 1 = (l.take 2).take 1 := by
      rw [List.take_take]
      norm_num
    rw [h1]
    exact List.take_sublist 1 (l.take 2)
  · exact List.Sublist.refl _

theorem cleanStep_cur_subperm (cutoff : Int) (st : LoopSt) (key : Nat) :
    (cleanStep cutoff st key).cur.Subperm st.cur := by
  unfold cleanStep
  split
  · exact List.Subperm.refl _
  · split
    · exact List.Subperm.refl _
    · split
      · split
        · split
          · split
            · exact List.Subperm.refl _
            · split
              · exact List.Subperm.refl _
              · exact (take_drop_sublist st.cur key).subperm
          · exact List.Subperm.refl _
        · split
          · split
            · exact rot_subperm st.cur
            · split
              · exact List.Subperm.refl _
              · exact (List.take_sublist 1 st.cur).subperm
          · split
            · exact (List.drop_sublist 1 st.cur).subperm
            · exact (List.nil_sublist st.cur).subperm
      · exact List.Subperm.refl _

theorem runLoop_cur_subperm (step : LoopSt → Nat → LoopSt)
    (hstep : ∀ st key, (step st key).cur.Subperm st.cur) (n : Nat) :
    ∀ st key, ((runLoop step st key n).cur).Subperm st.cur := by
  induction n with
  | zero => intro st key; exact List.Subperm.refl _
  | succ n ih =>
    intro st key
    exact (ih (step st key) (key + 1)).trans (hstep st key)

theorem loopResultOf_ok {st : LoopSt} {r : List Session}
    (h : loopResultOf st = LoopResult.ok r) : st.cur = r ∧ st.fault = none := by
  cases hf : st.fault with
  | none =>
    simp [loopResultOf, hf] at h
    exact ⟨h, rfl⟩
  | some f =>
    cases f with
    | panicked => simp [loopResultOf, hf] at h
    | memDependent => simp [loopResultOf, hf] at h

theorem cleanSessions_ok_subperm {l : List Session} {now timeout : Int}
    {r : List Session} (h : CleanSessions l now timeout = LoopResult.ok r) :
    r.Subperm l := by
  have h2 : loopResultOf
      (runLoop (cleanStep (now - timeout)) (initSt l) 0 l.length) =
      LoopResult.ok r := h
  obtain ⟨hcur, _⟩ := loopResultOf_ok h2
  have h3 := runLoop_cur_subperm (cleanStep (now - timeout))
    (cleanStep_cur_subperm (now - timeout)) l.length (initSt l) 0
  rw [hcur] at h3
  exact h3

theorem subperm_nodup_map_id {r l : List Session} (hsub : r.Subperm l)
    (h : (l.map Session.ID).Nodup) : (r.map Session.ID).Nodup := by
  obtain ⟨t, hperm, hsl⟩ := hsub
  have h1 : (t.map Session.ID).Nodup := (hsl.map Session.ID).nodup h
  exact (hperm.map Session.ID).nodup h1

theorem firstIdx_eq_none {l : List Session} {id : String} :
    firstIdx l id = none ↔ ∀ s ∈ l, ¬ s.ID = id := by
  induction l with
  | nil => simp [firstIdx]
  | cons t rest ih =>
    by_cases ht : t.ID = id
    · simp [firstIdx, ht]
    · simp [firstIdx, ht, ih]

theorem firstIdx_some {l : List Session} {id : String} {j : Nat}
    (h : firstIdx l id = some j) : ∃ s, l[j]? = some s ∧ s.ID = id := by
  induction l generalizing j with
  | nil => simp [firstIdx] at h
  | cons t rest ih =>
    by_cases ht : t.ID = id
    · simp [firstIdx, ht] at h
      exact ⟨t, by simp [← h], ht⟩
    · simp [firstIdx, ht] at h
      obtain ⟨j0, hj0, hjj⟩ := h
      obtain ⟨s, hs1, hs2⟩ := ih hj0
      refine ⟨s, ?_, hs2⟩
      rw [← hjj]
      simpa using hs1

theorem firstIdx_min {l : List Session} {id : String} {j : Nat}
    (h : firstIdx l id = some j) :
    ∀ i, i < j → ∀ v, l[i]? = some v → ¬ v.ID = id := by
  induction l generalizing j with
  | nil => simp [firstIdx] at h
  | cons t rest ih =>
    by_cases ht : t.ID = id
    · simp [firstIdx, ht] at h
      intro i hi
      omega
    · simp [firstIdx, ht] at h
      obtain ⟨j0, hj0, hjj⟩ := h
      intro i hi v hv
      cases i with
      | zero =>
        simp at hv
        rw [← hv]
        exact ht
      | succ i =>
        simp at hv
        exact ih hj0 i (by omega) v hv

theorem getSession_some {l : List Session} {id : String} {s : Session}
    (h : GetSession l id = some s) : s ∈ l ∧ s.ID = id := by
  induction l with
  | nil => simp [GetSession] at h
  | cons t rest ih =>
    by_cases ht : t.ID = id
    · simp [GetSession, ht] at h
      rw [← h]
      exact ⟨List.mem_cons_self t rest, ht⟩
    · simp [GetSession, ht] at h
      obtain ⟨h1, h2⟩ := ih h
      exact ⟨List.mem_cons_of_mem t h1, h2⟩

theorem getSession_none {l : List Session} {id : String} :
    GetSession l id = none ↔ ∀ t ∈ l, ¬ t.ID = id := by
  induction l with
  | nil => simp [GetSession]
  | cons t rest ih =>
    by_cases ht : t.ID = id
    · simp [GetSession, ht]
    · simp [GetSession, ht, ih]

theorem getSession_as_find (l : List Session) (id : String) :
    GetSession l id = l.find? (fun t => decide (t.ID = id)) := by
  induction l with
  | nil => simp [GetSession]
  | cons t rest ih =>
    by_cases ht : t.ID = id
    · simp [GetSession, List.find?, ht]
    · simp [GetSession, List.find?, ht, ih]

theorem replaceFirstValues_map_id (l : List Session) (id : String)
    (vals : List SessionValue) :
    (replaceFirstValues l id vals).map Session.ID = l.map Session.ID := by
  induction l with
  | nil => rfl
  | cons t rest ih =>
    by_cases ht : t.ID = id
    · simp [replaceFirstValues, ht]
    · simp [replaceFirstValues, ht, ih]

theorem runLoop_split (step : LoopSt → Nat → LoopSt) (st : LoopSt) {n j m : Nat}
    (hn : n = j + (1 + m)) (h1 : runLoop step st 0 j = st) :
    runLoop step st 0 n = runLoop step (step st j) (j + 1) m := by
  subst hn
  rw [runLoop_add step st 0 j (1 + m), h1, Nat.zero_add, runLoop_add step st j 1 m]
  rfl

theorem dropStep_at0 (id : String) (st : LoopSt) (v : Session)
    (hv : st.snap[0]? = some v) (hid : v.ID = id) (hf : st.fault = none)
    (hc : 1 ≤ st.cur.length) :
    dropStep id st 0 = { st with cur := st.cur.drop 1, off := st.off + 1 } := by
  have hc2 : ¬ st.cur.length < 1 := by omega
  simp [dropStep, hv, hid, hf, hc2]

theorem dropStep_at1 (id : String) (st : LoopSt) (v : Session)
    (hv : st.snap[1]? = some v) (hid : v.ID = id) (hf : st.fault = none)
    (hc : 2 ≤ st.cur.length) :
    dropStep id st 1 =
      { st with cur := st.cur.drop 2 ++ st.cur.take 1,
                aliased := false, fragile := true } := by
  have hc2 : ¬ st.cur.length < 2 := by omega
  simp [dropStep, hv, hid, hf, hc2]

theorem dropStep_atk (id : String) (st : LoopSt) (v : Session) (k : Nat)
    (hv : st.snap[k + 2]? = some v) (hid : v.ID = id) (hf : st.fault = none)
    (hfra : st.fragile = false) (hal : st.aliased = true)
    (hc : k + 2 < st.cur.length) :
    dropStep id st (k + 2) =
      { st with cur := st.cur.take (k + 2) ++ st.cur.drop (k + 2 + 1),
                snap := shiftWrite st.snap st.off (k + 2) st.cur } := by
  have hc2 : ¬ st.cur.length ≤ k + 2 := by omega
  have h12 : 1 < k + 2 := by omega
  simp [dropStep, hv, hid, hf, hfra, hal, hc2, h12]

theorem dropSession_eq_dropGo (l : List Session) (id : String)
    (h : (l.map Session.ID).Nodup) :
    DropSession l id = LoopResult.ok (dropGo l id) := by
  cases hj : firstIdx l id with
  | none =>
    have hall := firstIdx_eq_none.mp hj
    have hfr : runLoop (dropStep id) (initSt l) 0 l.length = initSt l := by
      apply runLoop_frozen
      intro i _ _
      exact dropStep_skip id (initSt l) i (fun v hv => hall v (memOfGetOpt hv))
    unfold DropSession
    rw [hfr]
    simp [loopResultOf, initSt, dropGo, hj]
  | some j =>
    obtain ⟨s, hsj, hsid⟩ := firstIdx_some hj
    have hjlt : j < l.length := lt_of_getOpt hsj
    have hmin := firstIdx_min hj
    have huniq : ∀ i, i ≠ j → ∀ v, l[i]? = some v → ¬ v.ID = id := by
      intro i hne v hv hvid
      exact hne (getOpt_id_inj h hv hsj (hvid.trans hsid.symm))
    obtain ⟨m, hm⟩ : ∃ m, l.length = j + (1 + m) := ⟨l.length - j - 1, by omega⟩
    have hphase1 : runLoop (dropStep id) (initSt l) 0 j = initSt l := by
      apply runLoop_frozen
      intro i hi1 hi2
      exact dropStep_skip id (initSt l) i (fun v hv => hmin i (by omega) v hv)
    by_cases hj0 : j = 0
    · subst hj0
      have efin : runLoop (dropStep id) (initSt l) 0 l.length =
          { initSt l with cur := (initSt l).cur.drop 1, off := (initSt l).off + 1 } := by
        rw [runLoop_split (dropStep id) (initSt l) hm hphase1,
          dropStep_at0 id (initSt l) s hsj hsid rfl (by simp [initSt]; omega)]
        apply runLoop_frozen
        intro i hi1 hi2
        exact dropStep_skip id _ i (fun v hv => huniq i (by omega) v hv)
      unfold DropSession
      rw [efin]
      simp [loopResultOf, initSt, dropGo, hj]
    · by_cases hj1 : j = 1
      · subst hj1
        have efin : runLoop (dropStep id) (initSt l) 0 l.length =
            { initSt l with cur := (initSt l).cur.drop 2 ++ (initSt l).cur.take 1,
                            aliased := false, fragile := true } := by
          rw [runLoop_split (dropStep id) (initSt l) hm hphase1,
            dropStep_at1 id (initSt l) s hsj hsid rfl (by simp [initSt]; omega)]
          apply runLoop_frozen
          intro i hi1 hi2
          exact dropStep_skip id _ i (fun v hv => huniq i (by omega) v hv)
        unfold DropSession
        rw [efin]
        simp [loopResultOf, initSt, dropGo, hj]
      · obtain ⟨k, hk⟩ : ∃ k, j = k + 2 := ⟨j - 2, by omega⟩
        subst hk
        have efin : runLoop (dropStep id) (initSt l) 0 l.length =
            { initSt l with
              cur := (initSt l).cur.take (k + 2) ++ (initSt l).cur.drop (k + 2 + 1),
              snap := shiftWrite (initSt l).snap (initSt l).off (k + 2) (initSt l).cur } := by
          rw [runLoop_split (dropStep id) (initSt l) hm hphase1,
            dropStep_atk id (initSt l) s k hsj hsid rfl rfl rfl
              (by simp [initSt]; omega)]
          apply runLoop_frozen
          intro i hi1 hi2
          apply dropStep_skip
          intro v hv
          have hvmem : v ∈ shiftWrite l 0 (k + 2) l := memOfGetOpt hv
          have hvmem2 : v ∈ l.take (k + 2) ++ l.drop (k + 2 + 1) ++
              l.drop (l.length - 1) := by
            simpa [shiftWrite] using hvmem
          rcases List.mem_append.mp hvmem2 with hv2 | hv2
          · rcases List.mem_append.mp hv2 with hv3 | hv3
            · obtain ⟨i0, hi0k, hi0⟩ := mem_take_idx hv3
              exact hmin i0 (by omega) v hi0
            · obtain ⟨i0, hi0k, hi0⟩ := mem_drop_idx hv3
              exact huniq i0 (by omega) v hi0
          · obtain ⟨i0, hi0k, hi0⟩ := mem_drop_idx hv2
            have hi0lt := lt_of_getOpt hi0
            exact huniq i0 (by omega) v hi0
        unfold DropSession
        rw [efin]
        simp [loopResultOf, initSt, dropGo, hj]

theorem setSession_eq_setUpsert (l : List Session) (s : Session) :
    SetSession l s = setUpsert l s := by
  induction l with
  | nil => simp [SetSession, GetSession, setUpsert]
  | cons t rest ih =>
    by_cases ht : t.ID = s.ID
    · simp [SetSession, GetSession, ht, replaceFirstValues, setUpsert]
    · cases hg : GetSession rest s.ID with
      | some u =>
        have h1 : SetSession rest s = replaceFirstValues rest s.ID s.Values := by
          simp [SetSession, hg]
        simp [SetSession, GetSession, ht, hg, replaceFirstValues, setUpsert]
        rw [← h1, ih]
      | none =>
        have h1 : SetSession rest s = rest ++ [s] := by
          simp [SetSession, hg]
        simp [SetSession, GetSession, ht, hg, setUpsert]
        rw [← h1, ih]

theorem foldl_headers_spec (L : List (String × String)) (w : ResponseWriter) :
    L.foldl (fun w p => { w with headers := setHeader w.headers p.1 p.2 }) w =
      { w with headers := L.foldl (fun hs p => setHeader hs p.1 p.2) w.headers } := by
  induction L generalizing w with
  | nil => rfl
  | cons p L ih =>
    rw [List.foldl_cons, List.foldl_cons]
    rw [ih]

theorem foldl_cookies_spec (L : List Cookie) (w : ResponseWriter) :
    L.foldl (fun w c => { w with cookies := w.cookies ++ [c] }) w =
      { w with cookies := w.cookies ++ L } := by
  induction L generalizing w with
  | nil => simp
  | cons c L ih =>
    rw [List.foldl_cons]
    rw [ih]
    simp

theorem dropGo_map_id_nodup (l : List Session) (id : String)
    (h : (l.map Session.ID).Nodup) : ((dropGo l id).map Session.ID).Nodup := by
  have hsub : (dropGo l id).Subperm l := by
    unfold dropGo
    cases hj : firstIdx l id with
    | none => exact List.Subperm.refl l
    | some j =>
      cases j with
      | zero => exact (List.drop_sublist 1 l).subperm
      | succ j2 =>
        cases j2 with
        | zero => exact rot_subperm l
        | succ k => exact (take_drop_sublist l (k + 2)).subperm
  exact subperm_nodup_map_id hsub h

theorem append_fresh_id_nodup {l : List Session} {s : Session}
    (h : (l.map Session.ID).Nodup) (hid : ¬ s.ID ∈ l.map Session.ID) :
    ((l ++ [s]).map Session.ID).Nodup := by
  rw [List.map_append]
  rw [List.nodup_append]
  refine ⟨h, List.nodup_singleton _, ?_⟩
  intro a ha hb
  simp at hb
  subst hb
  exact hid ha

/-- C8: `SessionManager.GetSession` is a pure lookup: it returns the first
record whose `ID` equals the requested id (equivalently, `List.find?` on the
ID), it returns `none` exactly when no record matches, and it leaves the
store entirely unchanged — the collection after the call
(`GetSessionSessions`) equals the collection before it, and the returned
session is an element of that untouched collection, so no `Values` list and
no `ActivityDate` (including that of the returned session) is modified by a
lookup. -/
theorem get_session_pure_lookup (l : List Session) (id : String) :
    (∀ s, GetSession l id = some s → s ∈ l ∧ s.ID = id)
    ∧ (GetSession l id = none ↔ ∀ t ∈ l, ¬ t.ID = id)
    ∧ GetSession l id = l.find? (fun t => decide (t.ID = id))
    ∧ GetSessionSessions l id = l :=
  ⟨fun _ hs => getSession_some hs, getSession_none, getSession_as_find l id, rfl⟩

/-- C10: the v0.1 `ActionResult.Execute` returns an error exactly when the
`Data` payload is empty; in that case neither a status code nor any body
bytes are written, while the headers and the cookies of the result are
written to the response in either case. -/
theorem execute_v01_error_iff_empty (result : ActionResult)
    (response : ResponseWriter) :
    ((Execute result response).2.isSome ↔ result.Data = [])
    ∧ (Execute result response).1.headers =
        result.Headers.foldl (fun hs p => setHeader hs p.1 p.2) response.headers
    ∧ (Execute result response).1.cookies = response.cookies ++ result.Cookies
    ∧ (result.Data = [] → (Execute result response).1.status = response.status
        ∧ (Execute result response).1.body = response.body)
    ∧ (result.Data ≠ [] →
        (Execute result response).1.status = some result.StatusCode
        ∧ (Execute result response).1.body = response.body ++ result.Data) := by
  by_cases hd : result.Data = []
  · have hlen : result.Data.length ≤ 0 := by simp [hd]
    simp [Execute, foldl_headers_spec, foldl_cookies_spec, hlen, hd]
  · have hlen : ¬ result.Data.length ≤ 0 := by
      cases hD : result.Data with
      | nil => exact absurd hD hd
      | cons a L => simp [hD]
    simp [Execute, foldl_headers_spec, foldl_cookies_spec, hlen, hd]

/-- C4 counterexample: `SetSession` on an existing ID replaces the stored
record's value collection but does NOT refresh its activity timestamp — the
stored `ActivityDate` stays 0 even though the incoming session carries
timestamp 100, so the claim's "its activity timestamp is refreshed" is false
at this input. -/
theorem set_session_no_refresh_cex :
    SetSession
        [{ ID := "a", Values := [{ key := "k", value := "x" }], ActivityDate := 0 }]
        { ID := "a", Values := [{ key := "k", value := "y" }], ActivityDate := 100 } =
      [{ ID := "a", Values := [{ key := "k", value := "y" }], ActivityDate := 0 }]
    ∧ (0 : Int) ≠ 100 := by
  refine ⟨by decide, by decide⟩

/-- C4 (amended): `SetSession` is an upsert in which an existing record (the
first one with the incoming ID) has its full value collection replaced — not
merged — by the incoming values while its `ActivityDate` is left unchanged
(no activity refresh), and an incoming record with an unknown ID is appended
as new; formally `SetSession` equals the direct-recursion upsert
`setUpsert`. -/
theorem set_session_upsert (l : List Session) (s : Session) :
    SetSession l s = setUpsert l s :=
  setSession_eq_setUpsert l s

/-- C2 counterexample: dropping the ID "b" from the three-session collection
[a, b, c] yields [c, a] — the survivors are rotated, not kept in their
relative order [a, c], so the order-preservation part of the claim is false
at this input. -/
theorem drop_session_order_cex :
    DropSession [{ ID := "a", Values := [], ActivityDate := 0 },
        { ID := "b", Values := [], ActivityDate := 0 },
        { ID := "c", Values := [], ActivityDate := 0 }] "b" =
      LoopResult.ok [{ ID := "c", Values := [], ActivityDate := 0 },
        { ID := "a", Values := [], ActivityDate := 0 }]
    ∧ LoopResult.ok [{ ID := "c", Values := [], ActivityDate := 0 },
        { ID := "a", Values := [], ActivityDate := 0 }] ≠
      LoopResult.ok [{ ID := "a", Values := [], ActivityDate := 0 },
        { ID := "c", Values := [], ActivityDate := 0 }] := by
  refine ⟨by decide, by decide⟩

/-- C2 (amended): on a collection whose IDs are unique (the store invariant),
`DropSession` completes without fault and removes exactly the matching
record, leaving the collection unchanged when no record matches; the
survivors keep their relative order except when the match sits at index 1 of
a collection with three or more records, in which case the record at index 0
is moved behind the remaining survivors (`dropGo` spells out the four
cases). -/
theorem drop_session_removes_match (l : List Session) (id : String)
    (h : (l.map Session.ID).Nodup) :
    DropSession l id = LoopResult.ok (dropGo l id) :=
  dropSession_eq_dropGo l id h

theorem drop_session_removes_match_witness :
    (([{ ID := "a", Values := [], ActivityDate := 0 },
        { ID := "b", Values := [], ActivityDate := 0 },
        { ID := "c", Values := [], ActivityDate := 0 }] : List Session).map
          Session.ID).Nodup
    ∧ DropSession [{ ID := "a", Values := [], ActivityDate := 0 },
        { ID := "b", Values := [], ActivityDate := 0 },
        { ID := "c", Values := [], ActivityDate := 0 }] "b" =
      LoopResult.ok (dropGo [{ ID := "a", Values := [], ActivityDate := 0 },
        { ID := "b", Values := [], ActivityDate := 0 },
        { ID := "c", Values := [], ActivityDate := 0 }] "b") :=
  ⟨by decide, drop_session_removes_match _ "b" (by decide)⟩

/-- C3 counterexample: `CreateSession` invoked with an ID already in the
collection appends a second record with the same ID instead of rejecting or
replacing — the collection then holds the ID "a" twice, violating the
at-most-one-session-per-ID invariant. -/
theorem create_session_duplicate_cex :
    ((CreateSession [{ ID := "a", Values := [], ActivityDate := 0 }] "a" 5).1.map
        Session.ID) = ["a", "a"]
    ∧ ¬ ((CreateSession [{ ID := "a", Values := [], ActivityDate := 0 }] "a" 5).1.map
        Session.ID).Nodup := by
  refine ⟨by decide, by decide⟩

/-- C3 (amended): starting from a collection with unique IDs, `SetSession`
preserves the at-most-one-session-per-ID invariant unconditionally, and so do
`DropSession` and `CleanSessions` whenever they complete without fault; but
`CreateSession` preserves it only when the requested ID is not already
present — it appends unconditionally, so a duplicate `create` corrupts the
invariant (see the counterexample) and callers must check `Contains`
first. -/
theorem store_mutations_id_nodup (l : List Session) (s : Session) (id : String)
    (now timeout : Int) (r rc : List Session)
    (h : (l.map Session.ID).Nodup) :
    (¬ id ∈ l.map Session.ID →
      (((CreateSession l id now).1).map Session.ID).Nodup)
    ∧ ((SetSession l s).map Session.ID).Nodup
    ∧ (DropSession l id = LoopResult.ok r → (r.map Session.ID).Nodup)
    ∧ (CleanSessions l now timeout = LoopResult.ok rc →
        (rc.map Session.ID).Nodup) := by
  refine ⟨?_, ?_, ?_, ?_⟩
  · intro hid
    have hcre : (CreateSession l id now).1 = l ++ [{ NewSession now with ID := id }] :=
      rfl
    rw [hcre]
    exact append_fresh_id_nodup h hid
  · cases hg : GetSession l s.ID with
    | some u =>
      have hset : SetSession l s = replaceFirstValues l s.ID s.Values := by
        simp [SetSession, hg]
      rw [hset, replaceFirstValues_map_id]
      exact h
    | none =>
      have hnotin : ¬ s.ID ∈ l.map Session.ID := by
        intro hmem
        obtain ⟨t, ht, hte⟩ := List.mem_map.mp hmem
        exact (getSession_none.mp hg t ht) hte
      have hset : SetSession l s = l ++ [s] := by
        simp [SetSession, hg]
      rw [hset]
      exact append_fresh_id_nodup h hnotin
  · intro hdrop
    rw [dropSession_eq_dropGo l id h] at hdrop
    have hr : dropGo l id = r := by
      injection hdrop
    rw [← hr]
    exact dropGo_map_id_nodup l id h
  · intro hclean
    exact subperm_nodup_map_id (cleanSessions_ok_subperm hclean) h

theorem store_mutations_id_nodup_witness :
    (([{ ID := "a", Values := [], ActivityDate := 0 }] : List Session).map
        Session.ID).Nodup
    ∧ ((¬ "c" ∈ ([{ ID := "a", Values := [], ActivityDate := 0 }] :
          List Session).map Session.ID →
        (((CreateSession [{ ID := "a", Values := [], ActivityDate := 0 }] "c" 5).1).map
          Session.ID).Nodup)
      ∧ ((SetSession [{ ID := "a", Values := [], ActivityDate := 0 }]
            { ID := "b", Values := [], ActivityDate := 0 }).map Session.ID).Nodup
      ∧ (DropSession [{ ID := "a", Values := [], ActivityDate := 0 }] "c" =
            LoopResult.ok [] → (([] : List Session).map Session.ID).Nodup)
      ∧ (CleanSessions [{ ID := "a", Values := [], ActivityDate := 0 }] 5 1 =
            LoopResult.ok [] → (([] : List Session).map Session.ID).Nodup)) :=
  ⟨by decide,
    store_mutations_id_nodup [{ ID := "a", Values := [], ActivityDate := 0 }]
      { ID := "b", Values := [], ActivityDate := 0 } "c" 5 1 [] [] (by decide)⟩

/-- C1 (code bug): on the two-session collection [a (activity 0), b (activity
1)] with now = 100 and timeout = 15 both sessions are expired (cutoff 85),
yet `CleanSessions` removes only the first and leaves the expired session b
in the collection — the remove-while-ranging loop skips elements that shift
left, contradicting both the claim and the function's own comment
("CleanSessions will drop inactive sessions"). -/
theorem clean_sessions_leaves_expired :
    CleanSessions [{ ID := "a", Values := [], ActivityDate := 0 },
        { ID := "b", Values := [], ActivityDate := 1 }] 100 15 =
      LoopResult.ok [{ ID := "b", Values := [], ActivityDate := 1 }]
    ∧ (1 : Int) < 100 - 15 := by
  refine ⟨by decide, by decide⟩

/-- C5 (code bug): the expiry sweep is not idempotent — on [a (activity 0),
b (activity 1)] with now = 100, timeout = 15, the first sweep leaves the
expired session b behind, and a second sweep then removes it, so two
consecutive sweeps do not equal one sweep. -/
theorem clean_sessions_not_idempotent :
    CleanSessions [{ ID := "a", Values := [], ActivityDate := 0 },
        { ID := "b", Values := [], ActivityDate := 1 }] 100 15 =
      LoopResult.ok [{ ID := "b", Values := [], ActivityDate := 1 }]
    ∧ CleanSessions [{ ID := "b", Values := [], ActivityDate := 1 }] 100 15 =
      LoopResult.ok []
    ∧ LoopResult.ok ([] : List Session) ≠
      LoopResult.ok [{ ID := "b", Values := [], ActivityDate := 1 }] := by
  refine ⟨by decide, by decide, by decide⟩

/-- C6: whenever the first path segment case-matches one of the reserved
names (controllers, views, models, emails), `handleRequest` refuses dispatch
into the Error hook path with the descriptive error "refused: reserved path",
and the outcome is never a served file — for every route table (a controller
of that name may even be registered) and every set of files on disk. -/
theorem handle_request_reserved_refused (rm : RouteManagerModel)
    (files : List (List String × String)) (method s0 : String)
    (rest : List String) (h : isReservedName s0 = true) :
    handleRequest rm files method (s0 :: rest) =
      Outcome.errorPath "refused: reserved path"
    ∧ ∀ content,
        handleRequest rm files method (s0 :: rest) ≠ Outcome.file content := by
  constructor
  · simp [handleRequest, h]
  · intro content
    simp [handleRequest, h]

theorem handle_request_reserved_refused_witness :
    isReservedName "Views" = true
    ∧ (handleRequest
          { routes := [("views", testControllerModel)], defaultController := "views" }
          [(["Views", "index.htm"], "Oh nos?")] "GET" ["Views", "index.htm"] =
        Outcome.errorPath "refused: reserved path"
      ∧ ∀ content,
          handleRequest
            { routes := [("views", testControllerModel)], defaultController := "views" }
            [(["Views", "index.htm"], "Oh nos?")] "GET" ["Views", "index.htm"] ≠
          Outcome.file content) :=
  ⟨by decide,
    handle_request_reserved_refused
      { routes := [("views", testControllerModel)], defaultController := "views" }
      [(["Views", "index.htm"], "Oh nos?")] "GET" "Views" ["index.htm"]
      (by decide)⟩

/-- C7: when the first segment matches no registered controller (and is not
reserved) but the default controller name is registered, `handleRequest`
dispatches through the default controller's factory with ALL original
segments as action-plus-parameter segments — segment 0 becomes the action
name, no segment is consumed for the controller; and concretely, with the
part_001 test controller (default "test", `Index` returning "Test Data") a
`GET /` request with no path segments yields the body "Test Data". -/
theorem default_controller_fallback (rm : RouteManagerModel)
    (files : List (List String × String)) (method s0 : String)
    (rest : List String) (c : ControllerModel)
    (h1 : isReservedName s0 = false)
    (h2 : lookupRoute rm.routes s0 = none)
    (h3 : lookupRoute rm.routes rm.defaultController = some c) :
    handleRequest rm files method (s0 :: rest) = runPipeline c method (s0 :: rest)
    ∧ handleRequest testRouteManager files "GET" [] = Outcome.body "Test Data" := by
  constructor
  · simp [handleRequest, h1, h2, h3]
  · rfl

theorem default_controller_fallback_witness :
    (isReservedName "missing" = false
      ∧ lookupRoute testRouteManager.routes "missing" = none
      ∧ lookupRoute testRouteManager.routes testRouteManager.defaultController =
          some testControllerModel)
    ∧ (handleRequest testRouteManager [] "GET" ["missing"] =
        runPipeline testControllerModel "GET" ["missing"]
      ∧ handleRequest testRouteManager [] "GET" [] = Outcome.body "Test Data") :=
  ⟨⟨by decide, by rfl, by rfl⟩,
    default_controller_fallback testRouteManager [] "GET" "missing" []
      testControllerModel (by decide) (by rfl) (by rfl)⟩

/-- C9: `setControllerSessions` returns an error exactly when it is invoked
with an absent controller or with a controller whose request is absent; the
failure is the function's return value (`Except.error`), not an HTTP
response — the model writes nothing to any response sink — and with a
controller and request present it always succeeds. -/
theorem set_controller_sessions_error_iff (sessions : List Session)
    (idKey freshID : String) (now : Int) (controller : Option ControllerInst) :
    (∃ e, setControllerSessions sessions idKey freshID now controller =
        Except.error e)
    ↔ (controller = none ∨ ∃ c, controller = some c ∧ c.request = none) := by
  cases controller with
  | none =>
    constructor
    · intro _
      exact Or.inl rfl
    · intro _
      exact ⟨"failed to set controller sessions on nil controller", rfl⟩
  | some c =>
    cases hr : c.request with
    | none =>
      constructor
      · intro _
        exact Or.inr ⟨c, rfl, hr⟩
      · intro _
        refine ⟨"failed to set controller sessions on nil request", ?_⟩
        simp [setControllerSessions, hr]
    | some req =>
      constructor
      · rintro ⟨e, he⟩
        exfalso
        cases hfind : req.cookies.find? (fun p => p.1 = idKey) with
        | some p =>
          cases hget : GetSession sessions p.2 with
          | some s => simp [setControllerSessions, hr, hfind, hget] at he
          | none => simp [setControllerSessions, hr, hfind, hget] at he
        | none => simp [setControllerSessions, hr, hfind] at he
      · rintro (hnone | ⟨c2, hc2, hreq⟩)
        · exact Option.noConfusion hnone
        · have hcc : c = c2 := Option.some.inj hc2
          rw [← hcc] at hreq
          rw [hr] at hreq
          exact Option.noConfusion hreq
